import Mathlib

/-!
Verification development for the kaldi-serve decoding layer
(`src/decoder.hpp`). The C++ code is shallowly embedded: pure helpers
become Lean functions, machine floats/doubles become exact rationals,
the external Kaldi/OpenFst search engine is modelled as an abstract
function of the accepted waveform (the spec treats it as an external
collaborator), and code that throws becomes `Except`.
-/

namespace KaldiServe

/-- Model of `struct Alternative` (decoder.hpp lines 40-44): one hypothesis
with transcript, confidence and the two path scores. In C++ the
default-constructed `transcript` is the empty string; `confidence`,
`am_score` and `lm_score` are set by `find_alternatives` before use. -/
structure Alternative where
  transcript : String
  confidence : ℚ
  am_score : ℚ
  lm_score : ℚ
deriving DecidableEq, Repr

/-- Result for one continuous utterance (decoder.hpp line 47). -/
abbrev utterance_results_t := List Alternative

/-- Model of `calculate_confidence` (decoder.hpp lines 53-55):
`std::max(0.0, std::min(1.0, -0.0001466488 * (2.388449 * lm_score + am_score) / (n_words + 1) + 0.956))`.
C++ doubles are modelled as exact rationals. -/
def calculate_confidence (lm_score am_score : ℚ) (n_words : ℕ) : ℚ :=
  max 0 (min 1 ((-1466488 / 10000000000) * ((2388449 / 1000000) * lm_score + am_score) / ((n_words : ℚ) + 1) + 956 / 1000))

/-- Clamp as written in the spec (section 4.4): `clamp(x, lo, hi)`. This
definition follows the words of the spec, for comparison with the source
definition `calculate_confidence`. -/
def clamp (x lo hi : ℚ) : ℚ := max lo (min hi x)

/-- One complete path of a lattice, as recovered by the external
`fst::GetLinearSymbolSequence` (invoked at decoder.hpp line 88): the
input-symbol sequence, the word-id sequence, and the two components of the
`kaldi::LatticeWeight` (`value1` the graph/LM cost, `value2` the acoustic
cost). -/
structure LatticePath where
  input_ids : List ℕ
  word_ids : List ℕ
  value1 : ℚ
  value2 : ℚ
deriving DecidableEq, Repr

/-- Model of `kaldi::CompactLattice` as consumed by `find_alternatives`:
a state count (`NumStates`, decoder.hpp line 63) together with the set of
complete paths it encodes. -/
structure CompactLattice where
  num_states : ℕ
  paths : List LatticePath
deriving DecidableEq, Repr

/-- Total cost of a lattice path: the natural order on `kaldi::LatticeWeight`
compares by the sum of graph and acoustic costs. -/
def total_cost (p : LatticePath) : ℚ := p.value1 + p.value2

/-- Boolean cost comparison used to model the cost order of the external
search engine. -/
def cost_le (p q : LatticePath) : Bool := decide (total_cost p ≤ total_cost q)

/-- Model of `fst::ShortestPath` followed by `fst::ConvertNbestToVector`
(external OpenFst, invoked at decoder.hpp lines 72-73): the `n_best`
lowest-cost complete paths of the lattice, best (lowest total cost) first. -/
def nbest_paths (clat : CompactLattice) (n_best : ℕ) : List LatticePath :=
  (clat.paths.mergeSort cost_le).take n_best

/-- Modelled from the spec: `string_join` lives in utils.hpp, which is not
under src/; the spec (section 4.4) describes the transcript as the
space-joined word sequence, so the helper joins the words with the given
separator. -/
def string_join (words : List String) (sep : String) : String :=
  String.intercalate sep words

/-- Body of the per-path loop of `find_alternatives` (decoder.hpp lines
86-105): look the word ids up in the symbol table, compute the joined
sentence, and build the `Alternative`. The source computes `sentence` via
`string_join` (line 93) but never assigns it to `alt.transcript` (lines
95-99), so the `Alternative` keeps the default-constructed empty
transcript. -/
def alternative_of_path (word_syms : ℕ → String) (p : LatticePath) : Alternative :=
  let words := p.word_ids.map word_syms
  let _sentence := string_join words " "
  { transcript := ""
    lm_score := p.value1
    am_score := p.value2
    confidence := calculate_confidence p.value1 p.value2 p.word_ids.length }

/-- Model of `find_alternatives` (decoder.hpp lines 59-106): an empty
lattice only logs; the n-best paths are extracted; if there are none the
function returns with `results` untouched (line 77); otherwise one
`Alternative` per path is pushed onto the caller-supplied `results`. -/
def find_alternatives (word_syms : ℕ → String) (clat : CompactLattice)
    (n_best : ℕ) (results : utterance_results_t) : utterance_results_t :=
  let nbest_lats := nbest_paths clat n_best
  if nbest_lats.isEmpty then
    results
  else
    results ++ nbest_lats.map (alternative_of_path word_syms)

/-- Outcome of `read_raw_wav_stream` (decoder.hpp lines 118-150): whether the
truncation warning at lines 134-138 fired, and the decoded 16-bit samples
(the single mono row of the wave matrix, one entry per column). -/
structure RawWavData where
  warned : Bool
  samples : List ℤ
deriving DecidableEq, Repr

/-- Reinterpretation of a uint16 value as an int16 (decoder.hpp line 146):
two-complement conversion. -/
def toInt16 (v : ℕ) : ℤ :=
  if v % 65536 < 32768 then (v % 65536 : ℤ) else (v % 65536 : ℤ) - 65536

/-- The byte buffer after `std::vector<char> buffer(data_bytes)` and a
partial `wav_stream.read` (decoder.hpp lines 125-126): the first
`min data_bytes stream.length` bytes come from the stream, the rest keep
the zero initialization of the vector. The vector size stays `data_bytes`
regardless of how many bytes the read delivered. -/
def padded_buffer (stream : List ℕ) (data_bytes : ℕ) : List ℕ :=
  stream.take data_bytes ++ List.replicate (data_bytes - min data_bytes stream.length) 0

/-- The sample columns read from the buffer (decoder.hpp lines 140-149):
`num_cols` little-endian uint16 values taken consecutively from the start
of the buffer, each converted to int16. -/
def raw_samples (buffer : List ℕ) (num_cols : ℕ) : List ℤ :=
  (List.range num_cols).map fun i => toInt16 (buffer.getD (2 * i) 0 + 256 * buffer.getD (2 * i + 1) 0)

/-- Model of `read_raw_wav_stream` (decoder.hpp lines 118-150).
`block_align = 1 * 16 / 8 = 2`. The `wav_stream.bad()` branch models an
unrecoverable stream fault, which a short read does not raise, so it is
not represented. `KALDI_ERR` throws, modelled by `Except.error`;
`KALDI_WARN` only logs, modelled by the `warned` flag. The matrix is
resized to `data_bytes / block_align` columns (line 143), the declared
size, not the number of bytes actually read. -/
def read_raw_wav_stream (stream : List ℕ) (data_bytes : ℕ) : Except String RawWavData :=
  let buffer := padded_buffer stream data_bytes
  if buffer.length = 0 then
    Except.error "WaveData: empty file (no data)"
  else
    Except.ok { warned := decide (buffer.length < data_bytes)
                samples := raw_samples buffer (data_bytes / 2) }

/-- Model of `Decoder::_decode_wave` (decoder.hpp lines 264-280) acting on
the session state. `AcceptWaveform` appends the chunk to the accepted
waveform of the feature pipeline; silence weighting and `AdvanceDecoding`
advance the external search engine, whose final outcome is modelled below
as an abstract function of the accepted waveform (the spec, sections 1 and
6, treats the feature extractor and search engine as external
collaborators). -/
def _decode_wave (accepted : List ℚ) (wave_part : List ℚ) : List ℚ :=
  accepted ++ wave_part

/-- Feeding a sequence of chunks through `_decode_wave`, starting from the
fresh session state of a decode call. -/
def decode_chunks (chunks : List (List ℚ)) : List ℚ :=
  chunks.foldl _decode_wave []

/-- Model of `Decoder::decode_stream_final` (decoder.hpp lines 418-432):
`InputFinished` and `FinalizeDecoding` close the session, then
`GetLattice` either yields a lattice, from which `find_alternatives`
appends to `results`, or throws; the catch block (lines 429-431) handles
the throw locally by printing, leaving `results` untouched, and the
function returns normally either way. The outcome of the external
`GetLattice` is passed in as an `Except`. -/
def decode_stream_final (word_syms : ℕ → String)
    (lattice_outcome : Except String CompactLattice)
    (n_best : ℕ) (results : utterance_results_t) : utterance_results_t :=
  match lattice_outcome with
  | Except.ok clat => find_alternatives word_syms clat n_best results
  | Except.error _ => results

/-- Conversion of a floating value to `int32` as in `int32(samp_freq * chunk_size)`
(decoder.hpp lines 344 and 395): truncation toward zero. Overflow of the
32-bit range does not occur for the sample rates and chunk sizes in use
and is not modelled. -/
def int32_of_rat (q : ℚ) : ℤ :=
  if q < 0 then -(⌊-q⌋) else ⌊q⌋

/-- The chunk length in samples computed at decoder.hpp lines 342-349 (and
identically at lines 393-400): for a positive `chunk_size` it is
`int32(samp_freq * chunk_size)` bumped to 1 when that is 0; otherwise it
is `std::numeric_limits<int32>::max()`. -/
def chunk_length_of (samp_freq chunk_size : ℚ) : ℕ :=
  if 0 < chunk_size then
    if (int32_of_rat (samp_freq * chunk_size)).toNat = 0 then 1
    else (int32_of_rat (samp_freq * chunk_size)).toNat
  else
    2147483647

/-- Default value of the `chunk_size` parameter of `decode_wav_audio` and
`decode_raw_wav_audio` (decoder.hpp lines 201 and 209): 1 second. -/
def default_chunk_size : ℚ := 1

/-- The successive `wave_part` slices produced by the while loop at
decoder.hpp lines 354-362: each iteration takes
`min chunk_length samp_remaining` samples starting at `samp_offset`.
The recursion is bounded by a fuel argument; `data.length` steps suffice
whenever `chunk_length` is at least 1, which `chunk_length_of` always
guarantees (see `chunk_length_of_pos`). -/
def chunk_loop_go (fuel : ℕ) (data : List ℚ) (chunk_length : ℕ) : List (List ℚ) :=
  match fuel, data with
  | _, [] => []
  | 0, _ => []
  | fuel + 1, d :: ds =>
      (d :: ds).take chunk_length :: chunk_loop_go fuel ((d :: ds).drop chunk_length) chunk_length

/-- The list of chunks the while loop at decoder.hpp lines 354-362 feeds to
`_decode_wave` for a buffer `data`. -/
def chunk_loop (data : List ℚ) (chunk_length : ℕ) : List (List ℚ) :=
  chunk_loop_go data.length data chunk_length

/-- Model of `Decoder::decode_wav_audio` (decoder.hpp lines 317-365): the
wave container is parsed externally into a sample rate and the channel
zero samples; the buffer is cut into chunks, each chunk is fed through
`_decode_wave`, and the session is finalized. `engine` abstracts the
external search pipeline: it maps the accepted waveform to the outcome of
`GetLattice` at finalize time. -/
def decode_wav_audio (engine : List ℚ → Except String CompactLattice)
    (word_syms : ℕ → String) (samp_freq : ℚ) (data : List ℚ)
    (n_best : ℕ) (results : utterance_results_t) (chunk_size : ℚ) :
    utterance_results_t :=
  let chunk_length := chunk_length_of samp_freq chunk_size
  decode_stream_final word_syms (engine (decode_chunks (chunk_loop data chunk_length)))
    n_best results

/-- Model of `Decoder::decode_raw_wav_audio` (decoder.hpp lines 367-416):
`read_raw_wav_stream` is called outside any try block, so a `KALDI_ERR`
thrown there propagates to the caller (`Except.error`); on success the
fixed 8000 Hz profile is used, the samples are chunked and fed through
`_decode_wave`, and `decode_stream_final` closes the session (its own
failures are caught inside it, so they do not propagate). -/
def decode_raw_wav_audio (engine : List ℚ → Except String CompactLattice)
    (word_syms : ℕ → String) (wav_stream : List ℕ) (data_bytes : ℕ)
    (n_best : ℕ) (results : utterance_results_t) (chunk_size : ℚ) :
    Except String utterance_results_t :=
  match read_raw_wav_stream wav_stream data_bytes with
  | Except.error e => Except.error e
  | Except.ok wav =>
      let data : List ℚ := wav.samples.map (fun s => (s : ℚ))
      let chunk_length := chunk_length_of 8000 chunk_size
      Except.ok (decode_stream_final word_syms
        (engine (decode_chunks (chunk_loop data chunk_length))) n_best results)

/-- State of a `DecoderQueue` (decoder.hpp lines 508-542): the decoders
sitting in the internal `queue_` (front first) and the multiset of
decoders currently checked out by request handler threads. Decoders are
identified by natural numbers. -/
structure QueueState where
  queue : List ℕ
  out : Multiset ℕ
deriving DecidableEq

/-- One thread operation on the queue. `pop` models `DecoderQueue::pop_`
(decoder.hpp lines 595-609): it is enabled only when `queue_` is nonempty,
because the wait loop at lines 599-603 suspends the thread on `cond_`
otherwise; it removes the front decoder and hands it to the caller.
`push` models `DecoderQueue::push_` (decoder.hpp lines 584-593): a thread
returns a decoder it had checked out, appending it at the back of
`queue_` and notifying one waiter. -/
inductive QStep : QueueState → QueueState → Prop
  | pop (d : ℕ) (q : List ℕ) (out : Multiset ℕ) :
      QStep ⟨d :: q, out⟩ ⟨q, d ::ₘ out⟩
  | push (d : ℕ) (q : List ℕ) (out : Multiset ℕ) (h : d ∈ out) :
      QStep ⟨q, out⟩ ⟨q ++ [d], out.erase d⟩

/-- Reachability under interleaved `pop_` and `push_` operations. -/
inductive QReach (init : QueueState) : QueueState → Prop
  | refl : QReach init init
  | step {s t : QueueState} : QReach init s → QStep s t → QReach init t

/-- Initial state built by the `DecoderQueue` constructor (decoder.hpp
lines 562-564): the factory produces `n` decoders, all pushed into the
queue, none checked out. -/
def init_state (n : ℕ) : QueueState :=
  ⟨List.range n, 0⟩

/-! Helper lemmas shared by the claim theorems. -/

/-- With an empty prior results vector, `find_alternatives` returns exactly
the alternatives of the n-best paths. -/
lemma find_alternatives_nil (word_syms : ℕ → String) (clat : CompactLattice) (n_best : ℕ) :
    find_alternatives word_syms clat n_best []
      = (nbest_paths clat n_best).map (alternative_of_path word_syms) := by
  unfold find_alternatives
  by_cases h : (nbest_paths clat n_best).isEmpty
  · simp [h, List.isEmpty_iff.mp h]
  · simp [h]

lemma cost_le_trans (a b c : LatticePath) (hab : cost_le a b) (hbc : cost_le b c) :
    cost_le a c := by
  simp only [cost_le, decide_eq_true_eq] at *
  exact le_trans hab hbc

lemma cost_le_total (a b : LatticePath) : cost_le a b || cost_le b a := by
  simp only [cost_le, Bool.or_eq_true, decide_eq_true_eq]
  exact le_total _ _

lemma padded_buffer_length (stream : List ℕ) (data_bytes : ℕ) :
    (padded_buffer stream data_bytes).length = data_bytes := by
  simp only [padded_buffer, List.length_append, List.length_take, List.length_replicate]
  omega

lemma raw_samples_length (buffer : List ℕ) (num_cols : ℕ) :
    (raw_samples buffer num_cols).length = num_cols := by
  simp [raw_samples]

/-- For a nonzero declared byte count, `read_raw_wav_stream` always succeeds,
never sets the truncation warning (the buffer length always equals the
declared `data_bytes`, so the check at decoder.hpp line 134 is
unsatisfiable), and yields `data_bytes / 2` samples. -/
lemma read_raw_ok (stream : List ℕ) (data_bytes : ℕ) (h : data_bytes ≠ 0) :
    read_raw_wav_stream stream data_bytes
      = Except.ok ⟨false, raw_samples (padded_buffer stream data_bytes) (data_bytes / 2)⟩ := by
  unfold read_raw_wav_stream
  simp only [padded_buffer_length]
  rw [if_neg h]
  simp

lemma foldl_decode_wave (chunks : List (List ℚ)) :
    ∀ acc, chunks.foldl _decode_wave acc = acc ++ chunks.flatten := by
  induction chunks with
  | nil => intro acc; simp
  | cons c cs ih => intro acc; simp [_decode_wave, ih]

/-- The waveform accepted by the session after feeding a chunk sequence is
the concatenation of the chunks. -/
lemma decode_chunks_eq_join (chunks : List (List ℚ)) :
    decode_chunks chunks = chunks.flatten := by
  unfold decode_chunks
  rw [foldl_decode_wave]
  simp

lemma chunk_length_of_pos (samp_freq chunk_size : ℚ) :
    0 < chunk_length_of samp_freq chunk_size := by
  unfold chunk_length_of
  by_cases h : 0 < chunk_size
  · rw [if_pos h]
    by_cases h0 : (int32_of_rat (samp_freq * chunk_size)).toNat = 0
    · rw [if_pos h0]; omega
    · rw [if_neg h0]; omega
  · rw [if_neg h]; omega

lemma chunk_loop_go_nil (fuel : ℕ) (cl : ℕ) : chunk_loop_go fuel [] cl = [] := by
  cases fuel <;> rfl

lemma chunk_loop_go_join (cl : ℕ) (hcl : 0 < cl) :
    ∀ (fuel : ℕ) (data : List ℚ), data.length ≤ fuel →
      (chunk_loop_go fuel data cl).flatten = data := by
  intro fuel
  induction fuel with
  | zero =>
      intro data h
      have hd : data = [] := List.length_eq_zero.mp (Nat.le_zero.mp h)
      subst hd
      rfl
  | succ n ih =>
      intro data h
      cases data with
      | nil => rfl
      | cons d ds =>
          have hstep : chunk_loop_go (n + 1) (d :: ds) cl
              = (d :: ds).take cl :: chunk_loop_go n ((d :: ds).drop cl) cl := rfl
          rw [hstep, List.flatten_cons, ih _ ?_, List.take_append_drop]
          simp only [List.length_drop, List.length_cons] at *
          omega

/-- Every sample of the buffer appears in the chunk list exactly once and in
order: the chunks concatenate back to the buffer. -/
lemma chunk_loop_join (data : List ℚ) (cl : ℕ) (hcl : 0 < cl) :
    (chunk_loop data cl).flatten = data :=
  chunk_loop_go_join cl hcl data.length data le_rfl

/-- When the whole buffer fits in one chunk, the loop produces exactly one
chunk, the buffer itself. -/
lemma chunk_loop_whole (data : List ℚ) (cl : ℕ) (hne : data ≠ [])
    (hlen : data.length ≤ cl) : chunk_loop data cl = [data] := by
  cases data with
  | nil => exact absurd rfl hne
  | cons d ds =>
      unfold chunk_loop
      have hstep : chunk_loop_go (d :: ds).length (d :: ds) cl
          = (d :: ds).take cl :: chunk_loop_go ds.length ((d :: ds).drop cl) cl := rfl
      rw [hstep, List.take_of_length_le hlen, List.drop_eq_nil_of_le hlen,
        chunk_loop_go_nil]

/-- Conservation of the resource count along any interleaving of queue
operations: the number of queued plus checked-out decoders stays `n`. -/
lemma qreach_sum (n : ℕ) (s : QueueState) (h : QReach (init_state n) s) :
    s.queue.length + Multiset.card s.out = n := by
  induction h with
  | refl => simp [init_state]
  | step hr hstep ih =>
      cases hstep with
      | pop d q out =>
          simp only [List.length_cons, Multiset.card_cons] at *
          omega
      | push d q out hd =>
          have hpos : 0 < Multiset.card out := Multiset.card_pos_iff_exists_mem.mpr ⟨d, hd⟩
          have hc : Multiset.card (out.erase d) = Multiset.card out - 1 := by
            rw [Multiset.card_erase_of_mem hd, Nat.pred_eq_sub_one]
          simp only [List.length_append, List.length_cons, List.length_nil, hc] at *
          omega

/-! Claim theorems. -/

/-- C1: for a decoder pool initialized with n resources, across arbitrary
interleavings of `pop_` (acquire) and `push_` (release) the total resource
count is conserved, at most n resources are ever checked out, an
additional acquire with all n checked out blocks because the queue is then
empty (only a release step is possible from such a state), and every
checked-out decoder can be released, after which it sits in the queue and
the queue is nonempty, so it is poppable again. -/
theorem decoder_queue_conservation (n : ℕ) (s : QueueState)
    (h : QReach (init_state n) s) :
    s.queue.length + Multiset.card s.out = n
    ∧ Multiset.card s.out ≤ n
    ∧ (Multiset.card s.out = n → s.queue = [])
    ∧ (Multiset.card s.out = n →
        ∀ t : QueueState, QStep s t →
          ∃ d, d ∈ s.out ∧ t = ⟨s.queue ++ [d], s.out.erase d⟩)
    ∧ (∀ d : ℕ, d ∈ s.out →
        ∃ t : QueueState, QStep s t ∧ d ∈ t.queue ∧ t.queue ≠ []) := by
  have hsum := qreach_sum n s h
  obtain ⟨queue, out⟩ := s
  simp only at hsum ⊢
  have hempty : Multiset.card out = n → queue = [] := by
    intro hc
    have : queue.length = 0 := by omega
    exact List.length_eq_zero.mp this
  refine ⟨hsum, by omega, hempty, ?_, ?_⟩
  · intro hc t hstep
    have hq : queue = [] := hempty hc
    subst hq
    cases hstep with
    | push d q o hd => exact ⟨d, hd, rfl⟩
  · intro d hd
    refine ⟨⟨queue ++ [d], out.erase d⟩, QStep.push d queue out hd, ?_, ?_⟩
    · simp
    · simp

/-- Witness for C1: with a pool of size 2 and the state reached by one
acquire, one decoder is checked out and conservation holds. -/
theorem decoder_queue_conservation_witness :
    ([1] : List ℕ).length + Multiset.card (0 ::ₘ (0 : Multiset ℕ)) = 2
    ∧ Multiset.card (0 ::ₘ (0 : Multiset ℕ)) ≤ 2 := by
  have h := decoder_queue_conservation 2 ⟨[1], 0 ::ₘ 0⟩
    (QReach.step QReach.refl (QStep.pop 0 [1] 0))
  exact ⟨h.1, h.2.1⟩

/-- C2: feeding a buffer chunk-by-chunk through `_decode_wave`, for any
partition of the buffer into chunks preserving sample order, then
finalizing, yields the same utterance result as feeding the buffer as one
whole chunk: the accepted waveform is the concatenation of the chunks
either way, and the final outcome depends only on it. -/
theorem chunking_invariance (engine : List ℚ → Except String CompactLattice)
    (word_syms : ℕ → String) (n_best : ℕ) (results : utterance_results_t)
    (buffer : List ℚ) (chunks : List (List ℚ)) (h : chunks.flatten = buffer) :
    decode_stream_final word_syms (engine (decode_chunks chunks)) n_best results
      = decode_stream_final word_syms (engine (decode_chunks [buffer])) n_best results := by
  rw [decode_chunks_eq_join, decode_chunks_eq_join]
  simp [h]

/-- Witness for C2: the partition of [1, 2, 3] into [1] and [2, 3] decodes
like the whole buffer. -/
theorem chunking_invariance_witness :
    ([[1], [2, 3]] : List (List ℚ)).flatten = [1, 2, 3]
    ∧ decode_stream_final (fun _ => "")
        ((fun _ => Except.error "t") (decode_chunks [[(1 : ℚ)], [2, 3]])) 5 []
      = decode_stream_final (fun _ => "")
        ((fun _ => Except.error "t") (decode_chunks [[(1 : ℚ), 2, 3]])) 5 [] := by
  refine ⟨by simp, ?_⟩
  exact chunking_invariance (fun _ => Except.error "t") (fun _ => "") 5 []
    [1, 2, 3] [[1], [2, 3]] (by simp)

/-- C3: on the scenario of the claim (16000 declared bytes, 8000 readable),
`read_raw_wav_stream` succeeds with the truncation warning NOT fired and
with 8000 samples (the declared 16000 bytes over block align 2), not the
4000 samples actually read: the check at decoder.hpp line 134 compares the
vector size, which always equals `data_bytes`, so it can never fire, and
the matrix is sized from the declared byte count. -/
theorem read_raw_truncation_divergence :
    ∃ r : RawWavData,
      read_raw_wav_stream (List.replicate 8000 1) 16000 = Except.ok r
      ∧ r.warned = false
      ∧ r.samples.length = 8000 := by
  refine ⟨_, read_raw_ok (List.replicate 8000 1) 16000 (by norm_num), rfl, ?_⟩
  rw [raw_samples_length]

/-- C4: on a lattice with a single path whose words resolve to "hello" and
"world", the transcript of the returned alternative is the empty string,
while the space-joined word sequence is "hello world": the source computes
the sentence but never assigns it to the alternative (decoder.hpp lines
93-99). -/
theorem find_alternatives_transcript_divergence :
    (find_alternatives
        (fun i => if i = 1 then "hello" else if i = 2 then "world" else "")
        ⟨3, [⟨[], [1, 2], 1, 2⟩]⟩ 5 []).map Alternative.transcript = [""]
    ∧ string_join (([1, 2] : List ℕ).map
        (fun i => if i = 1 then "hello" else if i = 2 then "world" else "")) " "
      = "hello world" := by
  constructor
  · rw [find_alternatives_nil]
    have hn : nbest_paths ⟨3, [⟨[], [1, 2], 1, 2⟩]⟩ 5 = [⟨[], [1, 2], 1, 2⟩] := by
      unfold nbest_paths
      rw [List.mergeSort_of_sorted (List.pairwise_singleton _ _)]
      rfl
    rw [hn]
    simp [alternative_of_path]
  · rfl

/-- C5 counterexample: calling `decode_raw_wav_audio` with a declared byte
length of 0 raises the empty-file error instead of returning an empty
utterance result. -/
theorem decode_raw_zero_counterexample :
    decode_raw_wav_audio (fun _ => Except.ok ⟨0, []⟩) (fun _ => "") [] 0 1 [] 1
      = Except.error "WaveData: empty file (no data)" := rfl

/-- C5 amended: for every engine, symbol table, stream, n-best and chunk
size, the raw-PCM decode path with declared byte length 0 propagates the
`KALDI_ERR` empty-file error to the caller; `read_raw_wav_stream` is
called outside any try block (decoder.hpp line 386), so the error is not
converted into an empty result. -/
theorem decode_raw_zero_raises (engine : List ℚ → Except String CompactLattice)
    (word_syms : ℕ → String) (wav_stream : List ℕ) (n_best : ℕ)
    (results : utterance_results_t) (chunk_size : ℚ) :
    decode_raw_wav_audio engine word_syms wav_stream 0 n_best results chunk_size
      = Except.error "WaveData: empty file (no data)" := by
  unfold decode_raw_wav_audio read_raw_wav_stream
  simp [padded_buffer]

/-- C6 counterexample: with the default chunk size (1 second,
decoder.hpp lines 201 and 209) and sample rate 2, a 4-sample buffer is
partitioned into two chunks of 2 samples, not processed as a single chunk
spanning the whole buffer. -/
theorem decode_default_chunk_counterexample :
    chunk_loop [0, 0, 0, 0] (chunk_length_of 2 default_chunk_size) = [[0, 0], [0, 0]]
    ∧ chunk_loop [0, 0, 0, 0] (chunk_length_of 2 default_chunk_size) ≠ [[0, 0, 0, 0]] := by
  have h2 : chunk_length_of 2 default_chunk_size = 2 := by
    norm_num [chunk_length_of, default_chunk_size, int32_of_rat]
    decide
  rw [h2]
  constructor
  · decide
  · decide

/-- C6 amended: the default chunk duration is 1 second, not the whole
buffer; for a positive chunk duration the buffer is partitioned into
successive chunks of `int32(sample_rate * duration)` samples (bumped to 1
when that truncation is 0), each sample fed exactly once and in order; a
single chunk spanning the whole buffer is used exactly when a non-positive
chunk duration is passed (chunk length becomes the int32 maximum). -/
theorem decode_chunk_partition (samp_freq chunk_size : ℚ) (data : List ℚ) :
    default_chunk_size = 1
    ∧ (0 < chunk_size →
        chunk_length_of samp_freq chunk_size
          = max 1 (int32_of_rat (samp_freq * chunk_size)).toNat)
    ∧ (¬ 0 < chunk_size → chunk_length_of samp_freq chunk_size = 2147483647)
    ∧ (chunk_loop data (chunk_length_of samp_freq chunk_size)).flatten = data
    ∧ (¬ 0 < chunk_size → data ≠ [] → data.length ≤ 2147483647 →
        chunk_loop data (chunk_length_of samp_freq chunk_size) = [data]) := by
  refine ⟨rfl, ?_, ?_, chunk_loop_join _ _ (chunk_length_of_pos _ _), ?_⟩
  · intro h
    unfold chunk_length_of
    rw [if_pos h]
    rcases Nat.eq_zero_or_pos (int32_of_rat (samp_freq * chunk_size)).toNat with h0 | h0
    · rw [if_pos h0, h0]
      exact (max_eq_left (by omega)).symm
    · rw [if_neg (Nat.pos_iff_ne_zero.mp h0)]
      exact (max_eq_right (by omega)).symm
  · intro h
    unfold chunk_length_of
    rw [if_neg h]
  · intro h hne hlen
    have hcl : chunk_length_of samp_freq chunk_size = 2147483647 := by
      unfold chunk_length_of
      rw [if_neg h]
    rw [hcl]
    exact chunk_loop_whole data _ hne hlen

/-- Witness for C6 amended: at sample rate 2 with the default chunk size
the chunk length is 2; the chunks of a 4-sample buffer concatenate back to
it; and a non-positive chunk size yields the single whole-buffer chunk. -/
theorem decode_chunk_partition_witness :
    chunk_length_of 2 default_chunk_size
      = max 1 (int32_of_rat (2 * default_chunk_size)).toNat
    ∧ (chunk_loop [0, 0, 0, 0] (chunk_length_of 2 default_chunk_size)).flatten
      = [0, 0, 0, 0]
    ∧ chunk_loop [0, 0, 0, 0] (chunk_length_of 2 0) = [[0, 0, 0, 0]] := by
  have h := decode_chunk_partition 2 default_chunk_size [0, 0, 0, 0]
  have h0 := decode_chunk_partition 2 0 [0, 0, 0, 0]
  exact ⟨h.2.1 (by norm_num [default_chunk_size]), h.2.2.2.1,
    h0.2.2.2.2 (by norm_num) (by decide) (by norm_num)⟩

/-- C7: `calculate_confidence` equals the clamped empirical formula of the
spec, and its value always lies in the closed interval from 0 to 1, for
every score pair and word count. -/
theorem calculate_confidence_spec (lm_score am_score : ℚ) (n_words : ℕ) :
    calculate_confidence lm_score am_score n_words
      = clamp ((-1466488 / 10000000000) * ((2388449 / 1000000) * lm_score + am_score)
          / ((n_words : ℚ) + 1) + 956 / 1000) 0 1
    ∧ 0 ≤ calculate_confidence lm_score am_score n_words
    ∧ calculate_confidence lm_score am_score n_words ≤ 1 := by
  refine ⟨rfl, le_max_left _ _, ?_⟩
  exact max_le (by norm_num) (min_le_left _ _)

/-- C8: starting from an empty results vector, `find_alternatives` returns
at most `n_best` alternatives, ordered best first by the cost ordering of
the search engine (nondecreasing sum of lm and am scores). -/
theorem find_alternatives_nbest_bound (word_syms : ℕ → String)
    (clat : CompactLattice) (n_best : ℕ) :
    (find_alternatives word_syms clat n_best []).length ≤ n_best
    ∧ List.Pairwise
        (fun a b : Alternative => a.lm_score + a.am_score ≤ b.lm_score + b.am_score)
        (find_alternatives word_syms clat n_best []) := by
  rw [find_alternatives_nil]
  constructor
  · rw [List.length_map]
    exact List.length_take_le _ _
  · apply List.pairwise_map.mpr
    have hs : (clat.paths.mergeSort cost_le).Pairwise (fun p q => cost_le p q = true) :=
      List.sorted_mergeSort cost_le_trans cost_le_total clat.paths
    unfold nbest_paths
    apply List.Pairwise.take
    apply hs.imp
    intro p q hpq
    simp only [cost_le, decide_eq_true_eq, total_cost] at hpq
    simp only [alternative_of_path]
    exact hpq

/-- C9: a failure while retrieving the lattice is caught locally inside
`decode_stream_final`, which returns normally with the results vector
untouched (empty if it was empty); consequently a whole raw decode call
whose engine fails at finalize still returns success with the prior
results, never propagating the error. -/
theorem decode_stream_final_catches (word_syms : ℕ → String) (e : String)
    (n_best : ℕ) (results : utterance_results_t) :
    decode_stream_final word_syms (Except.error e) n_best results = results
    ∧ ∀ (wav_stream : List ℕ) (data_bytes : ℕ) (chunk_size : ℚ),
        data_bytes ≠ 0 →
        decode_raw_wav_audio (fun _ => Except.error e) word_syms wav_stream
            data_bytes n_best results chunk_size = Except.ok results := by
  refine ⟨rfl, ?_⟩
  intro wav_stream data_bytes chunk_size hdb
  unfold decode_raw_wav_audio
  rw [read_raw_ok wav_stream data_bytes hdb]
  rfl

/-- Witness for C9: a timed-out lattice retrieval yields the empty result,
and the raw decode path returns success with the empty result. -/
theorem decode_stream_final_catches_witness :
    decode_stream_final (fun _ => "") (Except.error "client timed out") 5 [] = []
    ∧ decode_raw_wav_audio (fun _ => Except.error "client timed out") (fun _ => "")
        [1, 2] 2 5 [] 1 = Except.ok [] := by
  have h := decode_stream_final_catches (fun _ => "") "client timed out" 5 []
  exact ⟨h.1, h.2 [1, 2] 2 1 (by norm_num)⟩

/-- C10: `find_alternatives` only appends to the caller-supplied results
vector: the prior contents are preserved unchanged in their original
positions, and the appended tail does not depend on the prior contents,
so repeated decode calls into the same vector accumulate alternatives. -/
theorem find_alternatives_appends (word_syms : ℕ → String)
    (clat : CompactLattice) (n_best : ℕ) (results : utterance_results_t) :
    ∃ tail, find_alternatives word_syms clat n_best results = results ++ tail
      ∧ tail = find_alternatives word_syms clat n_best [] := by
  unfold find_alternatives
  by_cases h : (nbest_paths clat n_best).isEmpty
  · exact ⟨[], by simp [h], by simp [h]⟩
  · exact ⟨(nbest_paths clat n_best).map (alternative_of_path word_syms),
      by simp [h], by simp [h]⟩

end KaldiServe
